import Mathlib

/-
Verification of the Spades game server (double-deck, 11 rounds, nil bids,
denominator penalty).

The development shallowly embeds the server's JavaScript source:
 - `gameEngine.js` (deck construction, dealing, trick comparison, play
   legality, round scoring, the denominator penalty, game-state creation,
   `startRound`),
 - the socket orchestrator `index.js` (the `nil-decision`, `place-bid` and
   `play-card` handlers, `processEndOfTrick`, `processEndOfRound`, and the
   per-room lock used by the `play-card` handler),
 - `roomManager.js` (`joinRoom`).

JavaScript numbers are embedded as `Int` (all arithmetic in the embedded code
is exact integer arithmetic; `Math.floor(x/10)` on an integer `x` is `Int`
division by the positive constant `10`).  JavaScript objects used as
string-keyed dictionaries are embedded as functions `String → Option α`
(`none` = absent key) or `String → α` when every read applies a `|| default`
guard.  Randomness (`shuffle`) is embedded by quantifying over the shuffled
deck, constrained to be a permutation of the 104-card double deck.
-/

namespace Spades

/-! ### Deck and card utilities (gameEngine.js) -/

inductive Suit where
  | spades
  | hearts
  | diamonds
  | clubs
deriving DecidableEq, Repr

/-- Source: `SUITS = ['spades', 'hearts', 'diamonds', 'clubs']` -/
def SUITS : List Suit := [.spades, .hearts, .diamonds, .clubs]

/-- Source: `RANKS = ['2', ..., '10', 'J', 'Q', 'K', 'A']` -/
def RANKS : List String :=
  ["2", "3", "4", "5", "6", "7", "8", "9", "10", "J", "Q", "K", "A"]

/-- Source: `RANK_VALUES` lookup.  The source only ever applies it to members of
`RANKS`; the `0` default stands for the absent-key case. -/
def rankValue (r : String) : Int :=
  if r = "2" then 2 else if r = "3" then 3 else if r = "4" then 4
  else if r = "5" then 5 else if r = "6" then 6 else if r = "7" then 7
  else if r = "8" then 8 else if r = "9" then 9 else if r = "10" then 10
  else if r = "J" then 11 else if r = "Q" then 12 else if r = "K" then 13
  else if r = "A" then 14 else 0

structure Card where
  id : Nat
  suit : Suit
  rank : String
  value : Int
  deckNum : Nat
deriving DecidableEq, Repr

/-- Source: `createDoubleDeck()`: 104 cards, ids `0..103` assigned in iteration order
(two decks, suits in `SUITS` order, ranks in `RANKS` order). -/
def createDoubleDeck : List Card :=
  (((List.range 2).flatMap fun dn =>
      SUITS.flatMap fun s =>
        RANKS.map fun r => (dn, s, r)).enum).map
    fun x => { id := x.1, suit := x.2.2.1, rank := x.2.2.2,
               value := rankValue x.2.2.2, deckNum := x.2.1 }

/-- First index of `x` (JS `Array.indexOf`, with `none` for `-1`). -/
def idxOf : String → List String → Option Nat
  | _, [] => none
  | x, y :: ys => if y = x then some 0 else (idxOf x ys).map (· + 1)

/-- Source: `deal(players, cardsPerPlayer)` from gameEngine.js, with the shuffled deck
made explicit as the `deck` argument (the source computes
`deck = shuffle(createDoubleDeck())`; randomness is embedded by quantifying
over `deck`).  Hand of player `i` is `deck.slice(i*n, (i+1)*n)`; as in
JavaScript, the slice is silently truncated at the end of the deck.  The
function never fails. -/
def deal (deck : List Card) (players : List String) (n : Nat) :
    String → List Card :=
  fun q =>
    match idxOf q players with
    | some i => (deck.drop (i * n)).take n
    | none => []

/-- A trick entry `{ playerId, card }`. -/
structure Play where
  playerId : String
  card : Card
deriving DecidableEq, Repr

/-- Source: `isCardBetter(cardA, cardB, ledSuit)`: does the later-played `cardA` beat
(or tie, which the later card wins) the earlier `cardB`? -/
def isCardBetter (cardA cardB : Card) (ledSuit : Suit) : Bool :=
  if cardA.suit = .spades ∧ ¬cardB.suit = .spades then true
  else if cardB.suit = .spades ∧ ¬cardA.suit = .spades then false
  else if cardA.suit = .spades ∧ cardB.suit = .spades then
    decide (cardB.value ≤ cardA.value)
  else if cardA.suit = ledSuit ∧ ¬cardB.suit = ledSuit then true
  else if cardB.suit = ledSuit ∧ ¬cardA.suit = ledSuit then false
  else decide (cardB.value ≤ cardA.value)

/-- Source: `determineTrickWinner(trick, ledSuit)`: left-to-right reduction by
`isCardBetter`; returns `{ winnerId, winningCard }`.  The source indexes
`trick[0]` unguardedly; the `none` case stands for the empty trick the
callers rule out. -/
def determineTrickWinner (trick : List Play) (ledSuit : Suit) :
    Option (String × Card) :=
  match trick with
  | [] => none
  | t0 :: rest =>
    let best := rest.foldl
      (fun best t => if isCardBetter t.card best.card ledSuit then t else best) t0
    some (best.playerId, best.card)

/-- Source: `isValidPlay(card, hand, ledSuit, spadesBroken, isLeading)`: leading is
always legal (no spades-breaking restriction); otherwise the led suit must be
followed when the hand holds it.  `spadesBroken` is accepted and ignored,
exactly as in the source. -/
def isValidPlay (card : Card) (hand : List Card) (ledSuit : Option Suit)
    (spadesBroken : Bool) (isLeading : Bool) : Bool :=
  if isLeading then true
  else
    match ledSuit with
    | some s => if hand.any (fun c => c.suit = s) ∧ ¬card.suit = s then false else true
    | none => true

/-! ### Scoring rules (gameEngine.js) -/

structure ScoreResult where
  roundScore : Int
  overtricks : Int
deriving DecidableEq, Repr

/-- Source: `calculateRoundScore(bid, tricksWon, isNil)`. -/
def calculateRoundScore (bid tricksWon : Int) (isNil : Bool) : ScoreResult :=
  if isNil then
    { roundScore := if tricksWon = 0 then 100 else -100, overtricks := 0 }
  else if bid = 0 then
    { roundScore := tricksWon, overtricks := tricksWon }
  else if bid ≤ tricksWon then
    { roundScore := bid * 10 + (tricksWon - bid), overtricks := tricksWon - bid }
  else
    { roundScore := -(bid * 10), overtricks := 0 }

structure PenaltyResult where
  newTotal : Int
  penaltyApplied : Bool
deriving DecidableEq, Repr

/-- Source: `let firstX5 = Math.floor(low / 10) * 10 + 5; if (firstX5 <= low) firstX5
+= 10;` — the first x5 boundary the code tries (`Math.floor` of an integer
divided by `10` is `Int` division by the positive constant `10`). -/
def firstX5After (low : Int) : Int :=
  if low / 10 * 10 + 5 ≤ low then low / 10 * 10 + 5 + 10
  else low / 10 * 10 + 5

/-- Source: `applyDenominatorPenalty(previousScore, newScore)` (gameEngine.js, the
two-argument version at src/server/index.js lines 826-861). -/
def applyDenominatorPenalty (previousScore newScore : Int) : PenaltyResult :=
  if previousScore = newScore then
    { newTotal := newScore, penaltyApplied := false }
  else
    let low := min previousScore newScore
    let high := max previousScore newScore
    if firstX5After low ≤ high then
      { newTotal := newScore - 55, penaltyApplied := true }
    else
      { newTotal := newScore, penaltyApplied := false }

/-- The undirected crossing test the code implements: the half-open interval
`(min p t, max p t]` contains an integer congruent to `5` mod `10`
(equivalently, an integer whose absolute value ends in the digit 5). -/
def crossesX5 (p t : Int) : Prop :=
  ∃ x ∈ Finset.Icc (min p t + 1) (max p t), x % 10 = 5

instance decCrossesX5 (p t : Int) : Decidable (crossesX5 p t) := by
  unfold crossesX5
  infer_instance

/-- The claim's directional interval: `(p, t]` closed on the moving side,
inclusive of the endpoint `t` — for `p ≤ t` the set `{x | p < x ≤ t}`, for
`t < p` the set `{x | t ≤ x < p}`. -/
def specMovingCross (p t : Int) : Prop :=
  ∃ x ∈ (if p ≤ t then Finset.Icc (p + 1) t else Finset.Icc t (p - 1)),
    x % 10 = 5

structure PenaltyResultBag where
  newTotal : Int
  newBag : Int
  penaltyApplied : Bool
deriving DecidableEq, Repr

/-- Modelled from the spec: the three-argument
`applyDenominatorPenalty(total, currentBag, overtricks)` that
`processEndOfRound` calls (reading `newTotal`, `newBag`, `penaltyApplied`) is
not under src/ — only the older two-argument version is, and the
`overtrickBag` initialisation it relies on is likewise absent from the
included `createGameState`.  Following the caller's comment ("based on
accumulated overtricks"), the spec's overtrick-bag glossary ("feeds the
denominator check but is not itself penalized") and the spec's interval rule,
it adds the round's overtricks to the bag, and if the bag traversal crosses an
integer whose absolute value ends in the digit 5 it deducts 55 from the total
and reports the penalty. -/
def applyDenominatorPenaltyBag (total bag overtricks : Int) : PenaltyResultBag :=
  let newBag := bag + overtricks
  if crossesX5 bag newBag then
    { newTotal := total - 55, newBag := newBag, penaltyApplied := true }
  else
    { newTotal := total, newBag := newBag, penaltyApplied := false }

/-! ### Per-round scoring bookkeeping (`processEndOfRound`) -/

/-- A row pushed onto `gs.roundHistory[player]`.  The team-mode nil row omits
`overtricks`/`bagAfter` in the source (absent JS keys); they are recorded as
`0` here, which no claim reads. -/
structure RoundRow where
  round : Nat
  bid : Int
  tricks : Int
  isNil : Bool
  roundScore : Int
  overtricks : Int
  bagAfter : Int
  totalAfter : Int
  penaltyApplied : Bool
deriving DecidableEq, Repr

/-- One player's inputs to a round's scoring: `gs.bids[p] || 0`,
`gs.tricksWon[p] || 0`, `gs.nilBids[p] === true`. -/
structure RoundInput where
  bid : Int
  tricks : Int
  isNil : Bool
deriving DecidableEq, Repr

/-- The individual-mode per-player body of `processEndOfRound` (index.js /
part_006 lines 294-327): compute the round score, add it to the running
total, apply the denominator penalty, and build the history row. -/
def roundScoreStep (currentRound : Nat) (score bag : Int) (inp : RoundInput) :
    Int × Int × RoundRow :=
  let result := calculateRoundScore inp.bid inp.tricks inp.isNil
  let score1 := score + result.roundScore
  let pr := applyDenominatorPenaltyBag score1 bag result.overtricks
  (pr.newTotal, pr.newBag,
    { round := currentRound, bid := inp.bid, tricks := inp.tricks,
      isNil := inp.isNil, roundScore := result.roundScore,
      overtricks := result.overtricks, bagAfter := pr.newBag,
      totalAfter := pr.newTotal, penaltyApplied := pr.penaltyApplied })

/-- The history one player accumulates over successive rounds of an
individual-mode game (each round of `processEndOfRound` appends exactly one
row per player, and distinct players' entries never interact). -/
def playerHistory : Nat → Int → Int → List RoundInput → List RoundRow
  | _, _, _, [] => []
  | r, score, bag, inp :: rest =>
    let x := roundScoreStep r score bag inp
    x.2.2 :: playerHistory (r + 1) x.1 x.2.1 rest

/-- Sum of the recorded `roundScore`s minus 55 per `penaltyApplied` row. -/
def rowsTotal (rows : List RoundRow) : Int :=
  (rows.map (fun row => row.roundScore)).sum
    - 55 * (rows.countP (fun row => row.penaltyApplied) : Int)

/-! ### Room manager (`roomManager.js`, `joinRoom`) -/

structure PlayerEntry where
  id : String
  name : String
  ready : Bool
  connected : Bool
deriving DecidableEq, Repr

/-- The room fields `joinRoom` touches (`teams`/`gameState` are carried along
unchanged by `joinRoom` and omitted here). -/
structure Room where
  code : String
  hostId : String
  gameMode : String
  players : List PlayerEntry
  started : Bool
deriving DecidableEq, Repr

inductive JoinResult where
  | err (msg : String)
  | joined (room : Room)
  | reconnected (room : Room) (oldId : String)
deriving DecidableEq, Repr

/-- Mutate the first entry satisfying `pred` in place (the effect of JS
`find` followed by field assignments on the found object). -/
def replaceFirst (pred : PlayerEntry → Bool) (f : PlayerEntry → PlayerEntry) :
    List PlayerEntry → List PlayerEntry
  | [] => []
  | x :: xs => if pred x then f x :: xs else x :: replaceFirst pred f xs

/-- Source: `joinRoom(roomCode, playerId, playerName)`; the `rooms.get` lookup result
is the `Option Room` argument. -/
def joinRoom (room : Option Room) (playerId playerName : String) : JoinResult :=
  match room with
  | none => .err "Room not found"
  | some room =>
    if room.started then
      match room.players.find? (fun p => p.name = playerName) with
      | some existing =>
        let oldId := existing.id
        let players := replaceFirst (fun p => p.name = playerName)
          (fun p => { p with id := playerId, connected := true }) room.players
        let hostId := if room.hostId = oldId then playerId else room.hostId
        .reconnected { room with players := players, hostId := hostId } oldId
      | none => .err "Game already started"
    else if 8 ≤ room.players.length then .err "Room is full (max 8 players)"
    else if room.players.any (fun p => p.name = playerName) then
      .err "Name already taken"
    else
      .joined { room with players :=
        room.players ++ [{ id := playerId, name := playerName,
                           ready := false, connected := true }] }

/-! ### Game state and the orchestrator's transitions (index.js / part_006)

The game state mirrors the object built by `createGameState`.  String-keyed
JS dictionaries become functions; `bids` and `nilBids` map to `Option`
values because the handlers test key presence (`=== undefined`), while
`tricksWon`/`scores`/`overtrickBag` are read through `|| 0` and so embed as
total functions with default `0`.  The `winner` field (written only at game
over) is not read by any claim and is omitted. -/

inductive Phase where
  | nilPrompt
  | bidding
  | playing
  | roundEnd
  | gameOver
deriving DecidableEq, Repr

structure GameSt where
  currentRound : Nat
  phase : Phase
  playerOrder : List String
  currentPlayerIndex : Nat
  hands : String → List Card
  bids : String → Option Int
  nilBids : String → Option Bool
  tricksWon : String → Int
  currentTrick : List Play
  trickNumber : Nat
  ledSuit : Option Suit
  spadesBroken : Bool
  scores : String → Int
  overtrickBag : String → Int
  roundHistory : String → List RoundRow
  dealerIndex : Nat
  biddingStartIndex : Nat
  firstLeadIndex : Nat
  lastTrickWinner : Option String
  gameOver : Bool

/-- Assignment to one key of a JS dictionary. -/
def upd {α : Type} (f : String → α) (k : String) (v : α) : String → α :=
  fun q => if q = k then v else f q

/-- Source: `hand.findIndex(c => c.id === cardId)` followed by reading the card:
the first card with the given id. -/
def findById (cid : Nat) : List Card → Option Card
  | [] => none
  | c :: rest => if c.id = cid then some c else findById cid rest

/-- Source: `hand.splice(cardIndex, 1)`: remove the first card with the given id. -/
def removeFirstId (cid : Nat) : List Card → List Card
  | [] => []
  | c :: rest => if c.id = cid then rest else c :: removeFirstId cid rest

/-- Source: `createGameState(players, ...)` (individual mode; the team mirrors are
modelled separately for the team-scoring pass). -/
def createGameState (players : List String) : GameSt where
  currentRound := 1
  phase := .nilPrompt
  playerOrder := players
  currentPlayerIndex := 0
  hands := fun _ => []
  bids := fun _ => none
  nilBids := fun _ => none
  tricksWon := fun _ => 0
  currentTrick := []
  trickNumber := 0
  ledSuit := none
  spadesBroken := false
  scores := fun _ => 0
  overtrickBag := fun _ => 0
  roundHistory := fun _ => []
  dealerIndex := 0
  biddingStartIndex := 0
  firstLeadIndex := 0
  lastTrickWinner := none
  gameOver := false

/-- Source: `startRound(gameState)`, with the shuffled deck explicit. -/
def startRoundFn (deck : List Card) (s : GameSt) : GameSt :=
  let players := s.playerOrder
  let n := players.length
  let round := s.currentRound
  let dealerIndex := (round - 1) % n
  let biddingStartIndex := (dealerIndex + 1) % n
  let firstLeadIndex :=
    match s.lastTrickWinner with
    | some w =>
      match idxOf w players with
      | some i => i
      | none => biddingStartIndex
    | none => biddingStartIndex
  { s with
    hands := deal deck players round
    bids := fun _ => none
    nilBids := fun _ => none
    tricksWon := fun _ => 0
    currentTrick := []
    trickNumber := 0
    ledSuit := none
    spadesBroken := false
    dealerIndex := dealerIndex
    biddingStartIndex := biddingStartIndex
    currentPlayerIndex := biddingStartIndex
    firstLeadIndex := firstLeadIndex
    phase := if 10 ≤ round then .nilPrompt else .bidding }

/-- Source: `getCurrentPlayer(gameState)` = `playerOrder[currentPlayerIndex]`. -/
def getCurrentPlayer (s : GameSt) : Option String :=
  s.playerOrder.get? s.currentPlayerIndex

/-- The safety-bounded skip loop of the `nil-decision` handler: advance from
`idx` past players whose `nilBids` is `true`, at most `fuel` steps. -/
def skipNilFrom (order : List String) (nil : String → Option Bool) :
    Nat → Nat → Nat
  | idx, 0 => idx
  | idx, fuel + 1 =>
    match order.get? idx with
    | some p =>
      if nil p = some true then
        skipNilFrom order nil ((idx + 1) % order.length) fuel
      else idx
    | none => idx

/-- The safety-bounded advance loop of the `place-bid` handler: advance from
`next` past players whose bid is already defined, at most `fuel` steps. -/
def skipBidFrom (order : List String) (bids : String → Option Int) :
    Nat → Nat → Nat
  | next, 0 => next
  | next, fuel + 1 =>
    match order.get? next with
    | some q =>
      if (bids q).isSome then
        skipBidFrom order bids ((next + 1) % order.length) fuel
      else next
    | none => next

/-- Result of processing one event: a new state, a silent early return, or
an `invalid-play` error emitted to the single caller (state unchanged in the
latter two cases). -/
inductive StepRes where
  | ok (s : GameSt)
  | ignored
  | invalidPlay

/-- The `nil-decision` handler body (guards: room/game exist, the socket
resolves to a room member, phase is `nil-prompt`). -/
def nilDecisionFn (s : GameSt) (p : String) (goNil : Bool) : StepRes :=
  if s.phase = .nilPrompt ∧ p ∈ s.playerOrder then
    if s.playerOrder.all (fun q => (upd s.nilBids p (some goNil) q).isSome) then
      .ok { s with
        nilBids := upd s.nilBids p (some goNil)
        bids := if goNil then upd s.bids p (some 0) else s.bids
        phase := .bidding
        currentPlayerIndex :=
          skipNilFrom s.playerOrder (upd s.nilBids p (some goNil))
            s.biddingStartIndex s.playerOrder.length }
    else
      .ok { s with
        nilBids := upd s.nilBids p (some goNil)
        bids := if goNil then upd s.bids p (some 0) else s.bids }
  else .ignored

/-- The `place-bid` handler body. -/
def placeBidFn (s : GameSt) (p : String) (bid : Int) : StepRes :=
  if s.phase = .bidding ∧ p ∈ s.playerOrder ∧ ¬s.nilBids p = some true ∧
      getCurrentPlayer s = some p ∧ 0 ≤ bid ∧ bid ≤ (s.currentRound : Int) then
    if s.playerOrder.all
        (fun q => s.nilBids q == some true || (upd s.bids p (some bid) q).isSome) then
      .ok { s with bids := upd s.bids p (some bid), phase := .playing,
                   currentTrick := [], trickNumber := 0,
                   currentPlayerIndex := s.firstLeadIndex }
    else
      .ok { s with bids := upd s.bids p (some bid),
                   currentPlayerIndex :=
                     skipBidFrom s.playerOrder (upd s.bids p (some bid))
                       ((s.currentPlayerIndex + 1) % s.playerOrder.length)
                       s.playerOrder.length }
  else .ignored

/-- The `play-card` handler body (after the lock acquisition, which is
modelled separately). -/
def playCardFn (s : GameSt) (p : String) (cid : Nat) : StepRes :=
  if s.phase = .playing ∧ p ∈ s.playerOrder ∧ getCurrentPlayer s = some p then
    match findById cid (s.hands p) with
    | none => .ignored
    | some card =>
      if isValidPlay card (s.hands p)
          (if s.currentTrick.isEmpty then none
           else (s.currentTrick.head?).map fun t => t.card.suit)
          s.spadesBroken s.currentTrick.isEmpty then
        if (s.currentTrick ++ [({ playerId := p, card := card } : Play)]).length =
            s.playerOrder.length then
          .ok { s with
            ledSuit := if s.currentTrick.isEmpty then some card.suit else s.ledSuit
            spadesBroken := s.spadesBroken || card.suit == .spades
            hands := upd s.hands p (removeFirstId cid (s.hands p))
            currentTrick := s.currentTrick ++ [{ playerId := p, card := card }] }
        else
          .ok { s with
            ledSuit := if s.currentTrick.isEmpty then some card.suit else s.ledSuit
            spadesBroken := s.spadesBroken || card.suit == .spades
            hands := upd s.hands p (removeFirstId cid (s.hands p))
            currentTrick := s.currentTrick ++ [{ playerId := p, card := card }]
            currentPlayerIndex := (s.currentPlayerIndex + 1) % s.playerOrder.length }
      else .invalidPlay
  else .ignored

/-- Source: `processEndOfTrick`.  The callback is scheduled by `play-card` exactly
when the trick has just been completed; the guard `(phase = playing ∧
currentTrick.length = |players| ∧ trickNumber < currentRound)` states the
condition under which the orchestrator legally fires it. -/
def endTrickFn (s : GameSt) : StepRes :=
  if s.phase = .playing ∧ s.currentTrick.length = s.playerOrder.length ∧
      s.trickNumber < s.currentRound then
    match determineTrickWinner s.currentTrick
        ((s.currentTrick.head?.map fun t => t.card.suit).getD .spades) with
    | some result =>
      if s.currentRound ≤ s.trickNumber + 1 then
        .ok { s with
          tricksWon := upd s.tricksWon result.1 (s.tricksWon result.1 + 1)
          spadesBroken :=
            s.spadesBroken || s.currentTrick.any fun t => t.card.suit == .spades
          trickNumber := s.trickNumber + 1
          lastTrickWinner := some result.1 }
      else
        .ok { s with
          tricksWon := upd s.tricksWon result.1 (s.tricksWon result.1 + 1)
          spadesBroken :=
            s.spadesBroken || s.currentTrick.any fun t => t.card.suit == .spades
          trickNumber := s.trickNumber + 1
          lastTrickWinner := some result.1
          currentTrick := []
          ledSuit := none
          currentPlayerIndex := (idxOf result.1 s.playerOrder).getD 0 }
    | none => .ignored
  else .ignored

/-- The individual-mode scoring loop of `processEndOfRound`: one
`roundScoreStep` per player, updating `scores`, `overtrickBag` and
`roundHistory`. -/
def endRoundScoring (order : List String) (currentRound : Nat)
    (bids : String → Option Int) (tricksWon : String → Int)
    (nilBids : String → Option Bool)
    (acc : (String → Int) × (String → Int) × (String → List RoundRow)) :
    (String → Int) × (String → Int) × (String → List RoundRow) :=
  order.foldl
    (fun acc p =>
      let inp : RoundInput :=
        { bid := (bids p).getD 0, tricks := tricksWon p,
          isNil := nilBids p == some true }
      let x := roundScoreStep currentRound (acc.1 p) (acc.2.1 p) inp
      (upd acc.1 p x.1, upd acc.2.1 p x.2.1,
        upd acc.2.2 p (acc.2.2 p ++ [x.2.2])))
    acc

/-- Source: `processEndOfRound` (individual mode), fired by `processEndOfTrick`
exactly when the round's last trick has been resolved. -/
def endRoundFn (s : GameSt) : StepRes :=
  if s.phase = .playing ∧ s.trickNumber = s.currentRound then
    if 11 ≤ s.currentRound then
      .ok { s with
        scores := (endRoundScoring s.playerOrder s.currentRound s.bids
          s.tricksWon s.nilBids (s.scores, s.overtrickBag, s.roundHistory)).1
        overtrickBag := (endRoundScoring s.playerOrder s.currentRound s.bids
          s.tricksWon s.nilBids (s.scores, s.overtrickBag, s.roundHistory)).2.1
        roundHistory := (endRoundScoring s.playerOrder s.currentRound s.bids
          s.tricksWon s.nilBids (s.scores, s.overtrickBag, s.roundHistory)).2.2
        gameOver := true
        phase := .gameOver }
    else
      .ok { s with
        scores := (endRoundScoring s.playerOrder s.currentRound s.bids
          s.tricksWon s.nilBids (s.scores, s.overtrickBag, s.roundHistory)).1
        overtrickBag := (endRoundScoring s.playerOrder s.currentRound s.bids
          s.tricksWon s.nilBids (s.scores, s.overtrickBag, s.roundHistory)).2.1
        roundHistory := (endRoundScoring s.playerOrder s.currentRound s.bids
          s.tricksWon s.nilBids (s.scores, s.overtrickBag, s.roundHistory)).2.2
        currentRound := s.currentRound + 1
        phase := .roundEnd }
  else .ignored

/-- The events that drive a game: the client requests dispatched by the
orchestrator and its two scheduled callbacks.  `startRound` carries the deck
produced by `shuffle(createDoubleDeck())`. -/
inductive GEvent where
  | startRound (deck : List Card)
  | nilDecision (p : String) (goNil : Bool)
  | placeBid (p : String) (bid : Int)
  | playCard (p : String) (cid : Nat)
  | endTrick
  | endRound

/-- An event is legal when any deck it carries really came from shuffling the
double deck. -/
def LegalEvent : GEvent → Prop
  | .startRound deck => deck.Perm createDoubleDeck
  | _ => True

/-- Dispatch one event.  A mid-game `startRound` is triggered by the host's
`next-round` request, accepted only in the `round-end` phase. -/
def step (s : GameSt) : GEvent → StepRes
  | .startRound deck =>
    if s.phase = .roundEnd then .ok (startRoundFn deck s) else .ignored
  | .nilDecision p goNil => nilDecisionFn s p goNil
  | .placeBid p bid => placeBidFn s p bid
  | .playCard p cid => playCardFn s p cid
  | .endTrick => endTrickFn s
  | .endRound => endRoundFn s

/-- The state after an event: unchanged unless the event produced one. -/
def stepState (s : GameSt) (e : GEvent) : GameSt :=
  match step s e with
  | .ok s1 => s1
  | _ => s

/-- Source: `start-game`: `createGameState` followed by the first `startRound`. -/
def initGame (players : List String) (deck : List Card) : GameSt :=
  startRoundFn deck (createGameState players)

/-- A whole game run: start, then process a list of events in order. -/
def runGame (players : List String) (deck : List Card)
    (events : List GEvent) : GameSt :=
  events.foldl stepState (initGame players deck)

/-! ### The per-room lock (part_006 lines 25-36 and the handlers)

`acquireRoomLock` is a non-blocking try-lock on `roomLocks`; `locked` models
`roomLocks.get(roomCode)`.  Of all the handlers and scheduled callbacks, only
the `play-card` handler calls `acquireRoomLock`/`releaseRoomLock` (in a
`try`/`finally`, so the net lock state after the handler is `false`); the
others run on the room and game state without touching the lock. -/

structure Orch where
  locked : Bool
  game : GameSt

inductive HandlerRes where
  | droppedByLock
  | acted
  | skipped
  | invalidPlaySent
deriving DecidableEq, Repr

/-- The `play-card` handler including its lock discipline (part_006 lines
630-687). -/
def playCardHandler (o : Orch) (p : String) (cid : Nat) : Orch × HandlerRes :=
  if o.locked then (o, .droppedByLock)
  else
    match playCardFn o.game p cid with
    | .ok s1 => ({ locked := false, game := s1 }, .acted)
    | .invalidPlay => ({ locked := false, game := o.game }, .invalidPlaySent)
    | .ignored => ({ locked := false, game := o.game }, .skipped)

/-- The `processEndOfTrick` callback (part_006 lines 239-281): no lock
acquisition appears in the source, so the lock state is passed through and
never consulted. -/
def processEndOfTrickHandler (o : Orch) : Orch × HandlerRes :=
  match endTrickFn o.game with
  | .ok s1 => ({ locked := o.locked, game := s1 }, .acted)
  | _ => (o, .skipped)

/-- The `place-bid` handler (part_006 lines 578-626): likewise lock-free. -/
def placeBidHandler (o : Orch) (p : String) (bid : Int) : Orch × HandlerRes :=
  match placeBidFn o.game p bid with
  | .ok s1 => ({ locked := o.locked, game := s1 }, .acted)
  | _ => (o, .skipped)

/-! ### Team-mode scoring (`processEndOfRound`, part_006 lines 328-417)

The loop body for a single `(teamName, members)` entry of `gs.teams`.
Distinct teams touch disjoint state, so one team's pass is modelled. -/

structure TeamState where
  scores : String → Int
  roundHistory : String → List RoundRow
  teamScore : Int
  teamBag : Int
  teamHistory : List RoundRow

/-- First member loop: accumulate the team bid and tricks over non-nil
members; score nil members individually and push their history row (whose
`totalAfter` is the player's untouched running score). -/
def teamPassOne (currentRound : Nat) (bids : String → Option Int)
    (tricksWon : String → Int) (nilBids : String → Option Bool)
    (scores : String → Int) (members : List String)
    (acc : Int × Int × Int × (String → List RoundRow)) :
    Int × Int × Int × (String → List RoundRow) :=
  members.foldl
    (fun acc p =>
      let bid := (bids p).getD 0
      let tricks := tricksWon p
      if nilBids p == some true then
        let nilResult := calculateRoundScore bid tricks true
        (acc.1, acc.2.1, acc.2.2.1 + nilResult.roundScore,
          upd acc.2.2.2 p (acc.2.2.2 p ++
            [{ round := currentRound, bid := 0, tricks := tricks,
               isNil := true, roundScore := nilResult.roundScore,
               overtricks := 0, bagAfter := 0,
               totalAfter := scores p, penaltyApplied := false }]))
      else
        (acc.1 + bid, acc.2.1 + tricks, acc.2.2.1, acc.2.2.2))
    acc

/-- Second member loop: track non-nil members' individual scores for display
(`penaltyApplied` is always `false` on these rows). -/
def teamPassTwo (currentRound : Nat) (bids : String → Option Int)
    (tricksWon : String → Int) (nilBids : String → Option Bool)
    (members : List String)
    (acc : (String → Int) × (String → List RoundRow)) :
    (String → Int) × (String → List RoundRow) :=
  members.foldl
    (fun acc p =>
      let bid := (bids p).getD 0
      let tricks := tricksWon p
      if nilBids p == some true then acc
      else
        let indResult := calculateRoundScore bid tricks false
        let newScore := acc.1 p + indResult.roundScore
        (upd acc.1 p newScore,
          upd acc.2 p (acc.2 p ++
            [{ round := currentRound, bid := bid, tricks := tricks,
               isNil := false, roundScore := indResult.roundScore,
               overtricks := 0, bagAfter := 0,
               totalAfter := newScore, penaltyApplied := false }])))
    acc

/-- The whole per-team round pass: both member loops, the team total update,
the team-level denominator penalty and the team history row. -/
def processTeamRound (currentRound : Nat) (members : List String)
    (bids : String → Option Int) (tricksWon : String → Int)
    (nilBids : String → Option Bool) (ts : TeamState) : TeamState :=
  let p1 := teamPassOne currentRound bids tricksWon nilBids ts.scores members
    (0, 0, 0, ts.roundHistory)
  let teamBid := p1.1
  let teamTricks := p1.2.1
  let teamResult := calculateRoundScore teamBid teamTricks false
  let teamRoundScore := teamResult.roundScore + p1.2.2.1
  let teamScore1 := ts.teamScore + teamRoundScore
  let p2 := teamPassTwo currentRound bids tricksWon nilBids members
    (ts.scores, p1.2.2.2)
  let pr := applyDenominatorPenaltyBag teamScore1 ts.teamBag teamResult.overtricks
  { scores := p2.1
    roundHistory := p2.2
    teamScore := pr.newTotal
    teamBag := pr.newBag
    teamHistory := ts.teamHistory ++
      [{ round := currentRound, bid := teamBid, tricks := teamTricks,
         isNil := false, roundScore := teamRoundScore,
         overtricks := teamResult.overtricks, bagAfter := pr.newBag,
         totalAfter := pr.newTotal, penaltyApplied := pr.penaltyApplied }] }

/-! ### The card-conservation invariant (spec section 3, claim C4) -/

/-- Sum over the players of `hands[p].length`. -/
def sumHands (s : GameSt) : Nat :=
  (s.playerOrder.map fun p => (s.hands p).length).sum

/-- Every card id currently sitting in a hand or in the current trick. -/
def allCardIds (s : GameSt) : List Nat :=
  ((s.playerOrder.flatMap s.hands) ++ s.currentTrick.map fun t => t.card).map
    fun c => c.id

/-- The corrected conservation equation: the resolved final trick of a round
stays in `currentTrick` (it is cleared only by the next `startRound`), which
adds `|players|` to the left-hand side exactly while
`trickNumber = currentRound`. -/
def CardConservation (s : GameSt) : Prop :=
  sumHands s + s.trickNumber * s.playerOrder.length + s.currentTrick.length =
    s.currentRound * s.playerOrder.length +
      (if s.trickNumber = s.currentRound then s.playerOrder.length else 0)

/-- The inductive invariant carried through every event. -/
def Inv (s : GameSt) : Prop :=
  s.playerOrder.Nodup ∧
  2 ≤ s.playerOrder.length ∧ s.playerOrder.length ≤ 8 ∧
  1 ≤ s.currentRound ∧ s.currentRound ≤ 11 ∧
  CardConservation s ∧
  (allCardIds s).Nodup ∧
  ((s.phase = .nilPrompt ∨ s.phase = .bidding) →
    s.trickNumber = 0 ∧ s.currentTrick = [])

/-! ## Theorems -/

/-! ### Claim C1: the denominator penalty's crossing test -/

lemma firstX5After_mod (low : Int) : firstX5After low % 10 = 5 := by
  unfold firstX5After
  split <;> omega

lemma firstX5After_gt (low : Int) : low < firstX5After low := by
  unfold firstX5After
  split <;> omega

lemma firstX5After_least (low x : Int) (h1 : low < x) (h2 : x % 10 = 5) :
    firstX5After low ≤ x := by
  unfold firstX5After
  split <;> omega

/-- The boolean the code computes is exactly the undirected crossing test. -/
lemma crossesX5_iff_firstX5After (p t : Int) :
    crossesX5 p t ↔ firstX5After (min p t) ≤ max p t := by
  constructor
  · rintro ⟨x, hx, hm⟩
    rw [Finset.mem_Icc] at hx
    exact le_trans (firstX5After_least (min p t) x (by omega) hm) (by omega)
  · intro h
    refine ⟨firstX5After (min p t), Finset.mem_Icc.mpr ⟨?_, h⟩, firstX5After_mod _⟩
    have := firstX5After_gt (min p t)
    omega

/-- Claim C1 (amended): `applyDenominatorPenalty p t` applies the 55-point
penalty exactly when the half-open interval `(min p t, max p t]` contains an
integer whose absolute value ends in the digit 5, and otherwise returns `t`
unchanged.  (The claim's directional interval `(p, t]` — inclusive of the
endpoint `t` — agrees with this when `p ≤ t` but not when the total
decreases; see the counterexample.) -/
theorem applyDenominatorPenalty_crossing (p t : Int) :
    ((applyDenominatorPenalty p t).penaltyApplied = true ↔ crossesX5 p t) ∧
    (applyDenominatorPenalty p t).newTotal =
      (if crossesX5 p t then t - 55 else t) := by
  have hiff := crossesX5_iff_firstX5After p t
  by_cases hpt : p = t
  · subst hpt
    have hnc : ¬crossesX5 p p := by
      rw [hiff]
      have := firstX5After_gt (min p p)
      omega
    simp [applyDenominatorPenalty, hnc]
  · by_cases hcr : crossesX5 p t
    · have h2 : firstX5After (min p t) ≤ max p t := hiff.mp hcr
      simp [applyDenominatorPenalty, hpt, h2, hcr]
    · have h2 : ¬firstX5After (min p t) ≤ max p t := fun h => hcr (hiff.mpr h)
      simp [applyDenominatorPenalty, hpt, h2, hcr]

/-- Claim C1 counterexample: for the decreasing transition `p = 7`, `t = 5`,
the claim's interval `(7, 5]` (closed on the moving side, inclusive of the
endpoint `5`) contains `5`, whose absolute value ends in 5, so the claim
requires `penaltyApplied = true` and `newTotal = 5 - 55`; the code examines
`(5, 7]` instead and applies no penalty. -/
theorem applyDenominatorPenalty_moving_cx :
    specMovingCross 7 5 ∧
    applyDenominatorPenalty 7 5 = { newTotal := 5, penaltyApplied := false } := by
  constructor
  · exact ⟨5, by decide, by decide⟩
  · decide

/-! ### Claim C3: `calculateRoundScore` -/

/-- Claim C3: the four scoring cases of `calculateRoundScore`. -/
theorem calculateRoundScore_cases (bid tricksWon : Int) (isNil : Bool)
    (ht : 0 ≤ tricksWon) :
    (isNil = true →
      calculateRoundScore bid tricksWon isNil =
        { roundScore := if tricksWon = 0 then 100 else -100, overtricks := 0 }) ∧
    (isNil = false → bid = 0 →
      calculateRoundScore bid tricksWon isNil =
        { roundScore := tricksWon, overtricks := tricksWon }) ∧
    (isNil = false → 0 < bid → bid ≤ tricksWon →
      calculateRoundScore bid tricksWon isNil =
        { roundScore := 10 * bid + (tricksWon - bid),
          overtricks := tricksWon - bid }) ∧
    (isNil = false → tricksWon < bid →
      calculateRoundScore bid tricksWon isNil =
        { roundScore := -(10 * bid), overtricks := 0 }) := by
  refine ⟨?_, ?_, ?_, ?_⟩
  · intro h
    subst h
    simp [calculateRoundScore]
  · intro h hb
    subst h
    simp [calculateRoundScore, hb]
  · intro h hb hle
    subst h
    have hb0 : ¬bid = 0 := by omega
    simp [calculateRoundScore, hb0, hle, ScoreResult.mk.injEq]
    omega
  · intro h hlt
    subst h
    have hb0 : ¬bid = 0 := by omega
    have hnle : ¬bid ≤ tricksWon := by omega
    simp [calculateRoundScore, hb0, hnle, ScoreResult.mk.injEq]
    omega

/-- Witness for C3 at `bid = 2`, `tricksWon = 3`, non-nil. -/
theorem calculateRoundScore_cases_witness :
    calculateRoundScore 2 3 false =
      { roundScore := 10 * 2 + (3 - 2), overtricks := 3 - 2 } :=
  (calculateRoundScore_cases 2 3 false (by decide)).2.2.1 rfl (by decide)
    (by decide)

/-! ### Claim C9: `deal` -/

lemma idxOf_get (order : List String) (nd : order.Nodup) (i : Nat)
    (hi : i < order.length) :
    idxOf (order.get ⟨i, hi⟩) order = some i := by
  induction order generalizing i with
  | nil => simp at hi
  | cons a t ih =>
    cases i with
    | zero => simp [idxOf]
    | succ j =>
      have hj : j < t.length := by simpa using hi
      have hmem : t.get ⟨j, hj⟩ ∈ t := t.get_mem j hj
      have hne : ¬a = t.get ⟨j, hj⟩ := by
        intro he
        exact (List.nodup_cons.mp nd).1 (he ▸ hmem)
      have hget : (a :: t).get ⟨j + 1, hi⟩ = t.get ⟨j, hj⟩ := rfl
      rw [hget]
      unfold idxOf
      rw [if_neg hne, ih (List.nodup_cons.mp nd).2 j hj]
      rfl

/-- Claim C9 (amended): `deal` never fails.  Player `i` always receives the
slice `deck.slice(i*n, (i+1)*n)`, and when `|players| * n ≤ 104` (with the
full 104-card deck) that slice has exactly `n` cards at offset `i * n`; when
`|players| * n > 104` the slice is silently truncated instead of failing. -/
theorem deal_slices (deck : List Card) (players : List String) (n : Nat)
    (nd : players.Nodup) (i : Nat) (hi : i < players.length) :
    deal deck players n (players.get ⟨i, hi⟩) = (deck.drop (i * n)).take n ∧
    (deck.length = 104 → players.length * n ≤ 104 →
      (deal deck players n (players.get ⟨i, hi⟩)).length = n) := by
  have h1 : deal deck players n (players.get ⟨i, hi⟩) = (deck.drop (i * n)).take n := by
    unfold deal
    rw [idxOf_get players nd i hi]
  refine ⟨h1, ?_⟩
  intro h104 hfit
  rw [h1, List.length_take, List.length_drop, h104]
  have hmul : (i + 1) * n ≤ players.length * n :=
    Nat.mul_le_mul (by omega) (Nat.le_refl n)
  have hexp : (i + 1) * n = i * n + n := by ring
  omega

/-- Witness for C9's amended theorem: with the unshuffled double deck, two
players and one card each, player `B` receives the block at offset 1. -/
theorem deal_slices_witness :
    deal createDoubleDeck ["A", "B"] 1 (["A", "B"].get ⟨1, by decide⟩) =
        (createDoubleDeck.drop (1 * 1)).take 1 ∧
      (createDoubleDeck.length = 104 → ["A", "B"].length * 1 ≤ 104 →
        (deal createDoubleDeck ["A", "B"] 1 (["A", "B"].get ⟨1, by decide⟩)).length = 1) :=
  deal_slices createDoubleDeck ["A", "B"] 1 (by decide) 1 (by decide)

/-- Claim C9 counterexample: with 2 players and `n = 53` we have
`n * |players| = 106 > 104`, yet `deal` does not fail — it silently deals a
truncated 51-card hand to the second player. -/
theorem deal_truncates_cx :
    2 * 53 = 106 ∧
    (deal createDoubleDeck ["A", "B"] 53 "A").length = 53 ∧
    (deal createDoubleDeck ["A", "B"] 53 "B").length = 51 := by
  refine ⟨rfl, ?_, ?_⟩ <;> decide

/-! ### Claim C6: trick resolution -/

/-- The spec's trick-strength category: spades above cards following the led
suit, which are above the rest. -/
def trickCat (ledSuit : Suit) (c : Card) : Nat :=
  if c.suit = .spades then 2 else if c.suit = ledSuit then 1 else 0

/-- The spec's comparison, weakly: `a` loses to or ties `b`. -/
def specLe (ledSuit : Suit) (a b : Card) : Prop :=
  trickCat ledSuit a < trickCat ledSuit b ∨
    (trickCat ledSuit a = trickCat ledSuit b ∧ a.value ≤ b.value)

/-- The spec's comparison, strictly: `a` loses to `b` outright. -/
def specLt (ledSuit : Suit) (a b : Card) : Prop :=
  trickCat ledSuit a < trickCat ledSuit b ∨
    (trickCat ledSuit a = trickCat ledSuit b ∧ a.value < b.value)

lemma specLe_trans {s : Suit} {a b c : Card} (h1 : specLe s a b)
    (h2 : specLe s b c) : specLe s a c := by
  unfold specLe at *
  omega

lemma specLe_of_specLt {s : Suit} {a b : Card} (h : specLt s a b) :
    specLe s a b := by
  unfold specLe specLt at *
  omega

lemma specLt_of_lt_of_le {s : Suit} {a b c : Card} (h1 : specLt s a b)
    (h2 : specLe s b c) : specLt s a c := by
  unfold specLe specLt at *
  omega

lemma specLt_iff_not_specLe {s : Suit} {a b : Card} :
    specLt s a b ↔ ¬specLe s b a := by
  unfold specLe specLt
  omega

/-- The code's pairwise test agrees with the spec's comparison: the
later-played `a` replaces the standing best `b` exactly when `a` is at least
as strong. -/
lemma isCardBetter_iff (a b : Card) (led : Suit) :
    isCardBetter a b led = true ↔ specLe led b a := by
  cases ha : a.suit <;> cases hb : b.suit <;> cases led <;>
    simp [isCardBetter, specLe, trickCat, ha, hb]

/-- The running reduction of `determineTrickWinner`. -/
def bestOf (led : Suit) (b : Play) (rest : List Play) : Play :=
  rest.foldl
    (fun best t => if isCardBetter t.card best.card led then t else best) b

lemma determineTrickWinner_cons (t0 : Play) (rest : List Play) (led : Suit) :
    determineTrickWinner (t0 :: rest) led =
      some ((bestOf led t0 rest).playerId, (bestOf led t0 rest).card) := rfl

lemma bestOf_cases (led : Suit) (rest : List Play) :
    ∀ b : Play,
      (bestOf led b rest = b ∧ ∀ t ∈ rest, specLt led t.card b.card) ∨
      (∃ l1 w l2, rest = l1 ++ w :: l2 ∧ bestOf led b rest = w ∧
        specLe led b.card w.card ∧ (∀ u ∈ l1, specLe led u.card w.card) ∧
        (∀ u ∈ l2, specLt led u.card w.card)) := by
  induction rest with
  | nil =>
    intro b
    left
    exact ⟨rfl, by simp⟩
  | cons t rest ih =>
    intro b
    by_cases hbt : isCardBetter t.card b.card led = true
    · have hfold : bestOf led b (t :: rest) = bestOf led t rest := by
        simp [bestOf, hbt]
      have hble : specLe led b.card t.card := (isCardBetter_iff _ _ _).mp hbt
      rcases ih t with ⟨hr, hall⟩ | ⟨l1, w, l2, hsplit, hr, hbw, hl1, hl2⟩
      · right
        exact ⟨[], t, rest, by simp, by rw [hfold, hr], hble, by simp, hall⟩
      · right
        refine ⟨t :: l1, w, l2, by simp [hsplit], by rw [hfold, hr],
          specLe_trans hble hbw, ?_, hl2⟩
        intro u hu
        rcases List.mem_cons.mp hu with rfl | hu2
        · exact hbw
        · exact hl1 u hu2
    · have hfold : bestOf led b (t :: rest) = bestOf led b rest := by
        simp [bestOf, hbt]
      have htlt : specLt led t.card b.card := by
        rw [specLt_iff_not_specLe]
        intro hc
        exact hbt ((isCardBetter_iff _ _ _).mpr hc)
      rcases ih b with ⟨hr, hall⟩ | ⟨l1, w, l2, hsplit, hr, hbw, hl1, hl2⟩
      · left
        refine ⟨by rw [hfold, hr], ?_⟩
        intro u hu
        rcases List.mem_cons.mp hu with rfl | hu2
        · exact htlt
        · exact hall u hu2
      · right
        refine ⟨t :: l1, w, l2, by simp [hsplit], by rw [hfold, hr], hbw, ?_, hl2⟩
        intro u hu
        rcases List.mem_cons.mp hu with rfl | hu2
        · exact specLe_of_specLt (specLt_of_lt_of_le htlt hbw)
        · exact hl1 u hu2

/-- Claim C6: for a non-empty trick whose led suit is the first card's suit,
`determineTrickWinner` returns the entry holding a card that every
earlier-played card loses to or ties, and that every later-played card loses
to outright — i.e. the maximum under the spec's comparison, with exact ties
won by the later-played card. -/
theorem determineTrickWinner_maximal (trick : List Play) (ledSuit : Suit)
    (t0 : Play) (rest : List Play) (htrick : trick = t0 :: rest)
    (hled : ledSuit = t0.card.suit) :
    ∃ l1 w l2, trick = l1 ++ w :: l2 ∧
      determineTrickWinner trick ledSuit = some (w.playerId, w.card) ∧
      (∀ u ∈ l1, specLe ledSuit u.card w.card) ∧
      (∀ u ∈ l2, specLt ledSuit u.card w.card) := by
  subst htrick
  rcases bestOf_cases ledSuit rest t0 with ⟨hr, hall⟩ | ⟨l1, w, l2, hs, hr, hbw, hl1, hl2⟩
  · exact ⟨[], t0, rest, rfl, by rw [determineTrickWinner_cons, hr], by simp, hall⟩
  · refine ⟨t0 :: l1, w, l2, by simp [hs], by rw [determineTrickWinner_cons, hr], ?_, hl2⟩
    intro u hu
    rcases List.mem_cons.mp hu with rfl | hu2
    · exact hbw
    · exact hl1 u hu2

/-- Witness for C6: the spec's scenario-1 trick — `B` leads the heart 5, `C`
plays the heart king, `A` trumps with the spade 2 and wins. -/
theorem determineTrickWinner_maximal_witness :
    ∃ l1 w l2,
      [{ playerId := "B",
         card := { id := 16, suit := Suit.hearts, rank := "5", value := 5, deckNum := 0 } },
       { playerId := "C",
         card := { id := 24, suit := Suit.hearts, rank := "K", value := 13, deckNum := 0 } },
       { playerId := "A",
         card := { id := 0, suit := Suit.spades, rank := "2", value := 2, deckNum := 0 } }] =
        l1 ++ w :: (l2 : List Play) ∧
      determineTrickWinner
          [{ playerId := "B",
             card := { id := 16, suit := Suit.hearts, rank := "5", value := 5, deckNum := 0 } },
           { playerId := "C",
             card := { id := 24, suit := Suit.hearts, rank := "K", value := 13, deckNum := 0 } },
           { playerId := "A",
             card := { id := 0, suit := Suit.spades, rank := "2", value := 2, deckNum := 0 } }]
          Suit.hearts = some (w.playerId, w.card) ∧
      (∀ u ∈ l1, specLe Suit.hearts u.card w.card) ∧
      (∀ u ∈ l2, specLt Suit.hearts u.card w.card) :=
  determineTrickWinner_maximal _ Suit.hearts _ _ rfl rfl

/-! ### Claim C2: `totalAfter` bookkeeping -/

lemma rowsTotal_cons (row : RoundRow) (rows : List RoundRow) :
    rowsTotal (row :: rows) =
      row.roundScore - (if row.penaltyApplied then 55 else 0) + rowsTotal rows := by
  simp only [rowsTotal, List.map_cons, List.sum_cons, List.countP_cons]
  push_cast
  split <;> ring

lemma roundScoreStep_totalAfter (r : Nat) (score bag : Int) (inp : RoundInput) :
    (roundScoreStep r score bag inp).2.2.totalAfter =
      (roundScoreStep r score bag inp).1 := rfl

lemma roundScoreStep_newTotal (r : Nat) (score bag : Int) (inp : RoundInput) :
    (roundScoreStep r score bag inp).1 =
      score + (roundScoreStep r score bag inp).2.2.roundScore -
        (if (roundScoreStep r score bag inp).2.2.penaltyApplied then 55 else 0) := by
  simp only [roundScoreStep, applyDenominatorPenaltyBag]
  split <;> simp

lemma playerHistory_totalAfter (inputs : List RoundInput) :
    ∀ (r : Nat) (score bag : Int) (i : Nat)
      (h : i < (playerHistory r score bag inputs).length),
      ((playerHistory r score bag inputs).get ⟨i, h⟩).totalAfter =
        score + rowsTotal ((playerHistory r score bag inputs).take (i + 1)) := by
  induction inputs with
  | nil =>
    intro r score bag i h
    simp [playerHistory] at h
  | cons inp rest ih =>
    intro r score bag i h
    cases i with
    | zero =>
      simp only [playerHistory, List.get, List.take_succ_cons, List.take_zero,
        rowsTotal_cons]
      rw [roundScoreStep_totalAfter, roundScoreStep_newTotal]
      simp [rowsTotal]
      ring
    | succ j =>
      have hj : j < (playerHistory (r + 1) (roundScoreStep r score bag inp).1
          (roundScoreStep r score bag inp).2.1 rest).length := by
        simpa [playerHistory] using h
      have hrec := ih (r + 1) (roundScoreStep r score bag inp).1
        (roundScoreStep r score bag inp).2.1 j hj
      simp only [playerHistory, List.get_cons_succ, List.take_succ_cons,
        rowsTotal_cons] at *
      rw [hrec, roundScoreStep_newTotal]
      ring

/-- Claim C2 (amended to individual mode): starting from `createGameState`'s
zero totals and empty bags, after any sequence of rounds every recorded row's
`totalAfter` equals the sum of the `roundScore`s of the rows recorded so far
minus 55 for each of those rows with `penaltyApplied`. -/
theorem roundHistory_totalAfter (inputs : List RoundInput) (r : Nat) (i : Nat)
    (h : i < (playerHistory r 0 0 inputs).length) :
    ((playerHistory r 0 0 inputs).get ⟨i, h⟩).totalAfter =
      rowsTotal ((playerHistory r 0 0 inputs).take (i + 1)) := by
  have := playerHistory_totalAfter inputs r 0 0 i h
  omega

/-- Witness for C2's amended theorem: two rounds, bids made exactly. -/
theorem roundHistory_totalAfter_witness :
    ((playerHistory 1 0 0
        [{ bid := 1, tricks := 1, isNil := false },
         { bid := 2, tricks := 2, isNil := false }]).get ⟨1, by decide⟩).totalAfter =
      rowsTotal ((playerHistory 1 0 0
        [{ bid := 1, tricks := 1, isNil := false },
         { bid := 2, tricks := 2, isNil := false }]).take 2) :=
  roundHistory_totalAfter
    [{ bid := 1, tricks := 1, isNil := false },
     { bid := 2, tricks := 2, isNil := false }] 1 1 (by decide)

/-- Concrete team-mode inputs: player `A` declared nil and won no tricks,
player `B` bid 0 and won all 10 tricks of round 10. -/
def bidsTeamCx : String → Option Int :=
  fun q => if q = "A" then some 0 else if q = "B" then some 0 else none

def tricksTeamCx : String → Int :=
  fun q => if q = "B" then 10 else 0

def nilTeamCx : String → Option Bool :=
  fun q => if q = "A" then some true else if q = "B" then some false else none

def teamStateCx : TeamState :=
  { scores := fun _ => 0, roundHistory := fun _ => [], teamScore := 0,
    teamBag := 0, teamHistory := [] }

/-- Claim C2 counterexample: in team mode the nil player's history row records
`roundScore = 100` but `totalAfter = 0` — the player's running score is never
credited with the nil outcome — so `totalAfter` (0) differs from the sum of
recorded `roundScore`s minus the penalties (100). -/
theorem teamNilRow_totalAfter_cx :
    ((processTeamRound 10 ["A", "B"] bidsTeamCx tricksTeamCx nilTeamCx
        teamStateCx).roundHistory "A").map
        (fun row => (row.roundScore, row.totalAfter, row.penaltyApplied)) =
      [(100, 0, false)] ∧
    rowsTotal ((processTeamRound 10 ["A", "B"] bidsTeamCx tricksTeamCx nilTeamCx
        teamStateCx).roundHistory "A") = 100 ∧
    (0 : Int) ≠ 100 := by
  refine ⟨?_, ?_, by decide⟩ <;> decide

/-! ### Claim C7: `joinRoom` on a started room -/

/-- Claim C7 (amended): on a started room, `joinRoom` returns the
`GameAlreadyStarted` error unless a player with that exact name already
exists in the room — irrespective of whether that player is disconnected —
and in that case it reconnects that player: the stored id is replaced by the
new session id, `connected` is set, the host is transferred when the replaced
id was the host id, and the result is flagged as a reconnect. -/
theorem joinRoom_started (room : Room) (playerId playerName : String)
    (hs : room.started = true) :
    (room.players.find? (fun p => p.name = playerName) = none →
      joinRoom (some room) playerId playerName = .err "Game already started") ∧
    (∀ existing,
      room.players.find? (fun p => p.name = playerName) = some existing →
      joinRoom (some room) playerId playerName =
        .reconnected
          { room with
            players := replaceFirst (fun p => p.name = playerName)
              (fun p => { p with id := playerId, connected := true })
              room.players
            hostId := if room.hostId = existing.id then playerId
                      else room.hostId }
          existing.id) := by
  constructor
  · intro hfind
    simp [joinRoom, hs, hfind]
  · intro existing hfind
    simp [joinRoom, hs, hfind]

/-- Witness for C7's amended theorem: a started room with the disconnected
player `A`; joining as `A` with a fresh session id reconnects and transfers
the host. -/
theorem joinRoom_started_witness :
    joinRoom
        (some { code := "ABCDEF", hostId := "s1", gameMode := "individual",
                players := [{ id := "s1", name := "A", ready := true,
                              connected := false }],
                started := true }) "s2" "A" =
      .reconnected
        { code := "ABCDEF", hostId := "s2", gameMode := "individual",
          players := [{ id := "s2", name := "A", ready := true,
                        connected := true }],
          started := true } "s1" := by
  have h := (joinRoom_started
    { code := "ABCDEF", hostId := "s1", gameMode := "individual",
      players := [{ id := "s1", name := "A", ready := true,
                    connected := false }],
      started := true } "s2" "A" rfl).2
    { id := "s1", name := "A", ready := true, connected := false } (by decide)
  rw [h]
  decide

def roomCxC7 : Room :=
  { code := "ABCDEF", hostId := "s1", gameMode := "individual",
    players := [{ id := "s1", name := "A", ready := true, connected := true }],
    started := true }

/-- Claim C7 counterexample: the room has started and its only player `A` is
still connected, so the claim requires the `GameAlreadyStarted` error; the
code never consults `connected` and instead rebinds `A` (and the host role)
to the new session id. -/
theorem joinRoom_connected_hijack_cx :
    roomCxC7.started = true ∧
    roomCxC7.players.all (fun p => p.connected) = true ∧
    joinRoom (some roomCxC7) "s2" "A" =
      .reconnected
        { code := "ABCDEF", hostId := "s2", gameMode := "individual",
          players := [{ id := "s2", name := "A", ready := true,
                        connected := true }],
          started := true } "s1" := by
  refine ⟨rfl, rfl, ?_⟩
  decide

/-! ### Claim C8: the per-room lock -/

/-- Claim C8 (amended): a `play-card` request arriving while the room lock is
held is rejected without reading or mutating any state — but only the
`play-card` handler guards itself with the lock; the other handlers and the
scheduled callbacks proceed regardless of the lock (see the
counterexample). -/
theorem playCard_lock_rejected (o : Orch) (p : String) (cid : Nat)
    (hl : o.locked = true) :
    playCardHandler o p cid = (o, .droppedByLock) := by
  simp [playCardHandler, hl]

/-- Witness for C8's amended theorem at a concrete locked state. -/
theorem playCard_lock_rejected_witness :
    playCardHandler { locked := true, game := createGameState ["A", "B"] } "A" 0 =
      ({ locked := true, game := createGameState ["A", "B"] }, .droppedByLock) :=
  playCard_lock_rejected { locked := true, game := createGameState ["A", "B"] }
    "A" 0 rfl

/-- A game state whose current trick is complete, as left by the second
`play-card` of a 2-player round. -/
def gsCxC8 : GameSt :=
  { createGameState ["A", "B"] with
    phase := .playing
    currentTrick :=
      [{ playerId := "A",
         card := { id := 0, suit := Suit.spades, rank := "2", value := 2,
                   deckNum := 0 } },
       { playerId := "B",
         card := { id := 1, suit := Suit.spades, rank := "3", value := 3,
                   deckNum := 0 } }] }

/-- Claim C8 counterexample: the scheduled `processEndOfTrick` callback reads
and mutates game state while the room lock is held — it never acquires the
lock, refuting "every event that reads or mutates room or game state
acquires the room's mutually exclusive lock". -/
theorem endTrick_ignores_lock_cx :
    (processEndOfTrickHandler { locked := true, game := gsCxC8 }).1.locked = true ∧
    gsCxC8.trickNumber = 0 ∧
    (processEndOfTrickHandler { locked := true, game := gsCxC8 }).1.game.trickNumber = 1 ∧
    (processEndOfTrickHandler { locked := true, game := gsCxC8 }).2 =
      HandlerRes.acted := by
  refine ⟨?_, rfl, ?_, ?_⟩ <;> decide

/-! ### Claim C10: repeated nil decisions leave the bid of 0 behind -/

lemma nilDecisionFn_ok (s : GameSt) (p : String) (goNil : Bool)
    (hphase : s.phase = .nilPrompt) (hp : p ∈ s.playerOrder) :
    ∃ s1, nilDecisionFn s p goNil = .ok s1 ∧
      s1.nilBids = upd s.nilBids p (some goNil) ∧
      s1.bids = (if goNil then upd s.bids p (some 0) else s.bids) ∧
      s1.playerOrder = s.playerOrder ∧
      (s.playerOrder.all (fun q => (upd s.nilBids p (some goNil) q).isSome) = false →
        s1.phase = s.phase) := by
  unfold nilDecisionFn
  rw [if_pos ⟨hphase, hp⟩]
  split
  · next hall =>
      refine ⟨_, rfl, rfl, rfl, rfl, fun hf => ?_⟩
      rw [hall] at hf
      exact absurd hf (by simp)
  · exact ⟨_, rfl, rfl, rfl, rfl, fun _ => rfl⟩

/-- A round-10 position of a 3-player game, as produced by `startRound`. -/
def gsC10 : GameSt :=
  startRoundFn createDoubleDeck
    { createGameState ["A", "B", "C"] with currentRound := 10 }

/-- Run for C10: `C` first goes nil, then changes to not-nil; `A` and `B` decline nil;
then only `B` and `A` bid.  `C` sends no `place-bid` event. -/
def runC10 : GameSt :=
  [GEvent.nilDecision "C" true, .nilDecision "C" false,
   .nilDecision "A" false, .nilDecision "B" false,
   .placeBid "B" 2, .placeBid "A" 1].foldl stepState gsC10

/-- Claim C10: a nil decision may be resubmitted and the latest decision
wins, but a first decision of nil leaves `bids[p] = 0` behind when reversed
(the handler never clears it); consequently the bidding phase treats the
player as having already bid, and the game reaches the Playing phase by an
event sequence in which that player never places a bid (`runC10` contains no
`place-bid` by `C`). -/
theorem nilDecision_resubmission (s : GameSt) (p q : String)
    (hphase : s.phase = .nilPrompt) (hp : p ∈ s.playerOrder)
    (hq : q ∈ s.playerOrder) (hqp : ¬q = p) (hqundec : s.nilBids q = none) :
    ((stepState (stepState s (.nilDecision p true)) (.nilDecision p false)).nilBids p
        = some false ∧
      (stepState (stepState s (.nilDecision p true)) (.nilDecision p false)).bids p
        = some 0) ∧
    (runC10.phase = .playing ∧ runC10.bids "C" = some 0 ∧
      runC10.nilBids "C" = some false) := by
  constructor
  · obtain ⟨s1, hs1, hnil1, hbids1, hord1, hph1⟩ :=
      nilDecisionFn_ok s p true hphase hp
    have hall1 : s.playerOrder.all
        (fun r => (upd s.nilBids p (some true) r).isSome) = false := by
      rw [List.all_eq_false]
      exact ⟨q, hq, by simp [upd, hqp, hqundec]⟩
    have hph1s : s1.phase = .nilPrompt := (hph1 hall1).trans hphase
    have hp1 : p ∈ s1.playerOrder := hord1 ▸ hp
    obtain ⟨s2, hs2, hnil2, hbids2, hord2, hph2⟩ :=
      nilDecisionFn_ok s1 p false hph1s hp1
    have hstep : stepState (stepState s (.nilDecision p true)) (.nilDecision p false)
        = s2 := by
      simp only [stepState, step, hs1, hs2]
    rw [hstep, hnil2, hbids2]
    constructor
    · simp [upd]
    · simp [hbids1, upd]
  · refine ⟨?_, ?_, ?_⟩ <;> decide

/-- Witness for C10 at the concrete round-10 position (`p = C`, with `A`
still undecided). -/
theorem nilDecision_resubmission_witness :
    ((stepState (stepState gsC10 (.nilDecision "C" true)) (.nilDecision "C" false)).nilBids "C"
        = some false ∧
      (stepState (stepState gsC10 (.nilDecision "C" true)) (.nilDecision "C" false)).bids "C"
        = some 0) ∧
    (runC10.phase = .playing ∧ runC10.bids "C" = some 0 ∧
      runC10.nilBids "C" = some false) :=
  nilDecision_resubmission gsC10 "C" "A" (by decide) (by decide) (by decide)
    (by decide) (by decide)

/-! ### Claim C5: play legality and the invalid-play error path -/

/-- Claim C5: for a Playing-phase `play-card` request by the current player
holding the card: (1) when leading, any card — spades included — is accepted;
(2) when following, the card is valid exactly when it follows the led suit or
the hand holds no card of the led suit; (3) a card that violates the
follow-suit rule yields the `invalid-play` error to the single caller and
leaves the entire game state unchanged. -/
theorem playCard_legality (s : GameSt) (p : String) (cid : Nat) (card : Card)
    (hphase : s.phase = .playing) (hp : p ∈ s.playerOrder)
    (hcur : getCurrentPlayer s = some p)
    (hfind : findById cid (s.hands p) = some card) :
    (s.currentTrick = [] → ∃ s1, playCardFn s p cid = .ok s1) ∧
    (∀ t0 : Play, ∀ rest, s.currentTrick = t0 :: rest →
      (isValidPlay card (s.hands p) (some t0.card.suit) s.spadesBroken false = true ↔
        card.suit = t0.card.suit ∨ ∀ c ∈ s.hands p, ¬c.suit = t0.card.suit)) ∧
    (∀ t0 : Play, ∀ rest, s.currentTrick = t0 :: rest →
      ¬card.suit = t0.card.suit → (∃ c ∈ s.hands p, c.suit = t0.card.suit) →
      playCardFn s p cid = .invalidPlay ∧ stepState s (.playCard p cid) = s) := by
  refine ⟨?_, ?_, ?_⟩
  · intro hlead
    have hemp : s.currentTrick.isEmpty = true := by rw [hlead]; rfl
    unfold playCardFn
    rw [if_pos ⟨hphase, hp, hcur⟩]
    simp only [hfind, hemp, isValidPlay, if_pos trivial]
    split
    · exact ⟨_, rfl⟩
    · exact ⟨_, rfl⟩
  · intro t0 rest htr
    simp only [isValidPlay, Bool.if_false_left, Bool.if_true_right]
    constructor
    · intro hv
      by_cases hsuit : card.suit = t0.card.suit
      · exact Or.inl hsuit
      · refine Or.inr ?_
        intro c hc hcs
        have hany : (s.hands p).any (fun c => c.suit = t0.card.suit) = true := by
          rw [List.any_eq_true]
          exact ⟨c, hc, by simp [hcs]⟩
        simp [hany, hsuit] at hv
    · intro hv
      rcases hv with hsuit | hnone
      · simp [hsuit]
      · have hany : (s.hands p).any (fun c => c.suit = t0.card.suit) = false := by
          rw [List.any_eq_false]
          intro c hc
          simp [hnone c hc]
        simp [hany]
  · intro t0 rest htr hns hex
    have hemp : s.currentTrick.isEmpty = false := by rw [htr]; rfl
    have hhead : s.currentTrick.head? = some t0 := by rw [htr]; rfl
    have hval : isValidPlay card (s.hands p) (some t0.card.suit)
        s.spadesBroken false = false := by
      obtain ⟨c, hc, hcs⟩ := hex
      have hany : (s.hands p).any (fun c => c.suit = t0.card.suit) = true := by
        rw [List.any_eq_true]
        exact ⟨c, hc, by simp [hcs]⟩
      simp [isValidPlay, hany, hns]
    have hres : playCardFn s p cid = .invalidPlay := by
      unfold playCardFn
      rw [if_pos ⟨hphase, hp, hcur⟩]
      simp only [hfind, hemp, hhead, Option.map_some, if_neg Bool.false_ne_true]
      simp [hval]
    refine ⟨hres, ?_⟩
    simp only [stepState, step, hres]

/-- Cards for the C5 witness: `B` led the heart king, `A` holds the heart 5
and the club 2. -/
def cardHK : Card :=
  { id := 24, suit := .hearts, rank := "K", value := 13, deckNum := 0 }

def cardH5 : Card :=
  { id := 16, suit := .hearts, rank := "5", value := 5, deckNum := 0 }

def cardC2 : Card :=
  { id := 40, suit := .clubs, rank := "2", value := 2, deckNum := 0 }

def gsC5 : GameSt :=
  { createGameState ["A", "B"] with
    phase := .playing
    currentPlayerIndex := 0
    hands := fun q => if q = "A" then [cardH5, cardC2] else []
    currentTrick := [{ playerId := "B", card := cardHK }] }

/-- Witness for C5: `A` must follow hearts; playing the club 2 is rejected
with `invalid-play` and the state is unchanged. -/
theorem playCard_legality_witness :
    playCardFn gsC5 "A" 40 = .invalidPlay ∧
    stepState gsC5 (.playCard "A" 40) = gsC5 :=
  (playCard_legality gsC5 "A" 40 cardC2 rfl (by decide) rfl (by decide)).2.2
    { playerId := "B", card := cardHK } [] rfl (by decide)
    ⟨cardH5, by decide, rfl⟩

/-! ### Claim C4: list and dealing lemmas -/

lemma flatMapCongr (l : List String) (f g : String → List Card)
    (h : ∀ x ∈ l, f x = g x) : l.flatMap f = l.flatMap g := by
  induction l with
  | nil => rfl
  | cons a t ih =>
    simp only [List.flatMap_cons]
    rw [h a (List.mem_cons_self a t), ih fun x hx => h x (List.mem_cons_of_mem a hx)]

lemma sum_map_upd (order : List String) (h : String → List Card) (p : String)
    (v : List Card) (nd : order.Nodup) (hp : p ∈ order) :
    (order.map fun q => (upd h p v q).length).sum + (h p).length =
      (order.map fun q => (h q).length).sum + v.length := by
  induction order with
  | nil => cases hp
  | cons a t ih =>
    rcases List.mem_cons.mp hp with h1 | h1
    · subst h1
      have ha : p ∉ t := (List.nodup_cons.mp nd).1
      have hcong : ∀ q ∈ t, (upd h p v q).length = (h q).length := by
        intro q hq
        have hqp : ¬q = p := fun e => ha (e ▸ hq)
        simp [upd, hqp]
      rw [List.map_cons, List.map_cons, List.sum_cons, List.sum_cons,
        List.map_congr_left hcong]
      simp [upd]
      omega
    · have hap : ¬a = p := by
        rintro rfl
        exact (List.nodup_cons.mp nd).1 h1
      have ih2 := ih (List.nodup_cons.mp nd).2 h1
      simp only [List.map_cons, List.sum_cons]
      have hupd : upd h p v a = h a := by simp [upd, hap]
      rw [hupd]
      omega

lemma flatMap_upd (order : List String) (h : String → List Card) (p : String)
    (v : List Card) (nd : order.Nodup) (hp : p ∈ order) :
    ∃ l1 l2, order.flatMap h = l1 ++ (h p ++ l2) ∧
      order.flatMap (upd h p v) = l1 ++ (v ++ l2) := by
  induction order with
  | nil => cases hp
  | cons a t ih =>
    rcases List.mem_cons.mp hp with h1 | h1
    · subst h1
      have ha : p ∉ t := (List.nodup_cons.mp nd).1
      have hcong : t.flatMap (upd h p v) = t.flatMap h := by
        apply flatMapCongr
        intro q hq
        have hqp : ¬q = p := fun e => ha (e ▸ hq)
        simp [upd, hqp]
      refine ⟨[], t.flatMap h, by simp, ?_⟩
      simp only [List.flatMap_cons, hcong, List.nil_append]
      simp [upd]
    · have hap : ¬a = p := by
        rintro rfl
        exact (List.nodup_cons.mp nd).1 h1
      obtain ⟨l1, l2, he1, he2⟩ := ih (List.nodup_cons.mp nd).2 h1
      refine ⟨h a ++ l1, l2, ?_, ?_⟩
      · simp [List.flatMap_cons, he1]
      · have hupd : upd h p v a = h a := by simp [upd, hap]
        simp [List.flatMap_cons, hupd, he2]

lemma findById_perm (cid : Nat) :
    ∀ (l : List Card) (c : Card), findById cid l = some c →
      l.Perm (c :: removeFirstId cid l) ∧ c.id = cid := by
  intro l
  induction l with
  | nil =>
    intro c h
    simp [findById] at h
  | cons a t ih =>
    intro c h
    by_cases ha : a.id = cid
    · rw [findById, if_pos ha] at h
      obtain rfl := Option.some.inj h
      rw [removeFirstId, if_pos ha]
      exact ⟨List.Perm.refl _, ha⟩
    · rw [findById, if_neg ha] at h
      obtain ⟨hperm, hcid⟩ := ih c h
      rw [removeFirstId, if_neg ha]
      exact ⟨(hperm.cons a).trans (List.Perm.swap c a _), hcid⟩

lemma idxOf_mem_isSome (q : String) :
    ∀ t : List String, q ∈ t → (idxOf q t).isSome = true := by
  intro t
  induction t with
  | nil => intro h; cases h
  | cons b u ih =>
    intro hq
    by_cases hb : b = q
    · simp [idxOf, hb]
    · rcases List.mem_cons.mp hq with h1 | h1
      · exact absurd h1.symm hb
      · simp [idxOf, hb, ih h1]

lemma deal_head (deck : List Card) (a : String) (t : List String) (r : Nat) :
    deal deck (a :: t) r a = deck.take r := by
  unfold deal idxOf
  simp

lemma deal_eq (deck : List Card) (players : List String) (r : Nat) (q : String)
    (i : Nat) (h : idxOf q players = some i) :
    deal deck players r q = (deck.drop (i * r)).take r := by
  unfold deal
  rw [h]

lemma deal_tail (deck : List Card) (a : String) (t : List String) (r : Nat)
    (ha : a ∉ t) (q : String) (hq : q ∈ t) :
    deal deck (a :: t) r q = deal (deck.drop r) t r q := by
  have hqa : ¬a = q := fun e => ha (e ▸ hq)
  cases hind : idxOf q t with
  | none =>
    have hs := idxOf_mem_isSome q t hq
    rw [hind] at hs
    simp at hs
  | some i =>
    have hcons : idxOf q (a :: t) = some (i + 1) := by
      rw [idxOf, if_neg hqa, hind]
      rfl
    rw [deal_eq deck (a :: t) r q (i + 1) hcons,
      deal_eq (deck.drop r) t r q i hind, List.drop_drop]
    have hexp : (i + 1) * r = i * r + r := by ring
    rw [hexp, Nat.add_comm (i * r) r]

lemma sum_deal :
    ∀ (order : List String) (deck : List Card) (r : Nat), order.Nodup →
      order.length * r ≤ deck.length →
      (order.map fun q => (deal deck order r q).length).sum = order.length * r := by
  intro order
  induction order with
  | nil =>
    intro deck r _ _
    simp
  | cons a t ih =>
    intro deck r nd hlen
    have ha : a ∉ t := (List.nodup_cons.mp nd).1
    have hexp : (t.length + 1) * r = t.length * r + r := by ring
    simp only [List.length_cons] at hlen
    rw [List.map_cons, List.sum_cons, deal_head]
    have hcong : ∀ q ∈ t,
        (deal deck (a :: t) r q).length = (deal (deck.drop r) t r q).length := by
      intro q hq
      rw [deal_tail deck a t r ha q hq]
    rw [List.map_congr_left hcong]
    have hlen2 : t.length * r ≤ (deck.drop r).length := by
      rw [List.length_drop]
      omega
    rw [ih (deck.drop r) r (List.nodup_cons.mp nd).2 hlen2, List.length_take,
      List.length_cons]
    omega

lemma flatMap_deal_sublist :
    ∀ (order : List String) (deck : List Card) (r : Nat), order.Nodup →
      (order.flatMap fun q => deal deck order r q).Sublist deck := by
  intro order
  induction order with
  | nil =>
    intro deck r _
    simp
  | cons a t ih =>
    intro deck r nd
    have ha : a ∉ t := (List.nodup_cons.mp nd).1
    simp only [List.flatMap_cons]
    rw [deal_head]
    have hcong : (t.flatMap fun q => deal deck (a :: t) r q) =
        t.flatMap fun q => deal (deck.drop r) t r q :=
      flatMapCongr t _ _ fun q hq => deal_tail deck a t r ha q hq
    rw [hcong]
    have hsub := List.Sublist.append (List.Sublist.refl (deck.take r))
      (ih (deck.drop r) r (List.nodup_cons.mp nd).2)
    rwa [List.take_append_drop] at hsub

lemma createDoubleDeck_length : createDoubleDeck.length = 104 := by decide

set_option maxRecDepth 8192 in
lemma createDoubleDeck_ids_nodup :
    (createDoubleDeck.map fun c => c.id).Nodup := by decide

lemma deck_perm_ids_nodup (deck : List Card) (hp : deck.Perm createDoubleDeck) :
    (deck.map fun c => c.id).Nodup :=
  ((hp.map fun c => c.id).nodup_iff).mpr createDoubleDeck_ids_nodup

/-- Moving one card `c` out of the hand decomposition and onto the end of the
trick permutes the combined card pool. -/
lemma perm_move_card (l1 l2 R T H : List Card) (c : Card)
    (hH : H.Perm (c :: R)) :
    ((l1 ++ (R ++ l2)) ++ (T ++ [c])).Perm ((l1 ++ (H ++ l2)) ++ T) := by
  have h1 : ((l1 ++ (R ++ l2)) ++ (T ++ [c])).Perm
      (c :: (l1 ++ (R ++ l2 ++ T))) := by
    have e1 : (l1 ++ (R ++ l2)) ++ (T ++ [c]) =
        (l1 ++ (R ++ l2 ++ T)) ++ [c] := by
      simp [List.append_assoc]
    rw [e1]
    exact List.perm_append_singleton c _
  have h2 : ((l1 ++ (H ++ l2)) ++ T).Perm (c :: (l1 ++ (R ++ l2 ++ T))) := by
    have step1 : ((l1 ++ (H ++ l2)) ++ T).Perm ((l1 ++ ((c :: R) ++ l2)) ++ T) :=
      ((hH.append_right l2).append_left l1).append_right T
    have eq2 : (l1 ++ ((c :: R) ++ l2)) ++ T = l1 ++ (c :: (R ++ l2 ++ T)) := by
      simp [List.append_assoc]
    rw [eq2] at step1
    exact step1.trans List.perm_middle
  exact h1.trans h2.symm

lemma inv_playCard (s : GameSt) (p : String) (cid : Nat) (hinv : Inv s) :
    Inv (stepState s (.playCard p cid)) := by
  obtain ⟨hnd, h2, h8, hr1, hr11, hcons, hids, hph⟩ := hinv
  simp only [stepState, step]
  unfold playCardFn
  by_cases hg : s.phase = .playing ∧ p ∈ s.playerOrder ∧
      getCurrentPlayer s = some p
  · rw [if_pos hg]
    obtain ⟨hphase, hp, hcur⟩ := hg
    cases hfind : findById cid (s.hands p) with
    | none => exact ⟨hnd, h2, h8, hr1, hr11, hcons, hids, hph⟩
    | some card =>
      dsimp only
      by_cases hval : isValidPlay card (s.hands p)
          (if s.currentTrick.isEmpty then none
           else (s.currentTrick.head?).map fun t => t.card.suit)
          s.spadesBroken s.currentTrick.isEmpty = true
      · rw [if_pos hval]
        obtain ⟨hperm, hcid⟩ := findById_perm cid (s.hands p) card hfind
        have hlen1 : (s.hands p).length =
            (removeFirstId cid (s.hands p)).length + 1 := by
          have := hperm.length_eq
          simpa using this
        have hsum := sum_map_upd s.playerOrder s.hands p
          (removeFirstId cid (s.hands p)) hnd hp
        have e3 : (s.playerOrder.map fun q =>
              (upd s.hands p (removeFirstId cid (s.hands p)) q).length).sum +
            s.trickNumber * s.playerOrder.length +
            (s.currentTrick ++ [({ playerId := p, card := card } : Play)]).length =
            s.currentRound * s.playerOrder.length +
              (if s.trickNumber = s.currentRound then s.playerOrder.length
               else 0) := by
          unfold CardConservation sumHands at hcons
          simp only [List.length_append, List.length_cons, List.length_nil]
          set K := (if s.trickNumber = s.currentRound then s.playerOrder.length
            else 0) with hK
          omega
        have e7 : ((s.playerOrder.flatMap
              (upd s.hands p (removeFirstId cid (s.hands p))) ++
              (s.currentTrick ++ [({ playerId := p, card := card } : Play)]).map
                fun t => t.card).map fun c => c.id).Nodup := by
          obtain ⟨l1, l2, he1, he2⟩ := flatMap_upd s.playerOrder s.hands p
            (removeFirstId cid (s.hands p)) hnd hp
          unfold allCardIds at hids
          rw [he1] at hids
          rw [he2]
          have hmap : (s.currentTrick ++
              [({ playerId := p, card := card } : Play)]).map (fun t => t.card) =
              s.currentTrick.map (fun t => t.card) ++ [card] := by simp
          rw [hmap]
          have hpm := perm_move_card l1 l2 (removeFirstId cid (s.hands p))
            (s.currentTrick.map fun t => t.card) (s.hands p) card hperm
          exact ((hpm.map fun c => c.id).nodup_iff).mpr hids
        have e4 : s.phase = Phase.nilPrompt ∨ s.phase = Phase.bidding →
            s.trickNumber = 0 ∧
            s.currentTrick ++ [({ playerId := p, card := card } : Play)] = [] := by
          rintro (h | h) <;> rw [hphase] at h <;> exact absurd h (by simp)
        by_cases hfull : (s.currentTrick ++
            [({ playerId := p, card := card } : Play)]).length =
            s.playerOrder.length
        · rw [if_pos hfull]
          exact ⟨hnd, h2, h8, hr1, hr11, e3, e7, e4⟩
        · rw [if_neg hfull]
          exact ⟨hnd, h2, h8, hr1, hr11, e3, e7, e4⟩
      · rw [if_neg hval]
        exact ⟨hnd, h2, h8, hr1, hr11, hcons, hids, hph⟩
  · rw [if_neg hg]
    exact ⟨hnd, h2, h8, hr1, hr11, hcons, hids, hph⟩

/-! ### Claim C4: the invariant is (re-)established by `startRound` -/

lemma startRoundFn_proj (deck : List Card) (s : GameSt) :
    (startRoundFn deck s).playerOrder = s.playerOrder ∧
    (startRoundFn deck s).currentRound = s.currentRound ∧
    (startRoundFn deck s).hands = deal deck s.playerOrder s.currentRound ∧
    (startRoundFn deck s).currentTrick = [] ∧
    (startRoundFn deck s).trickNumber = 0 := by
  unfold startRoundFn
  exact ⟨rfl, rfl, rfl, rfl, rfl⟩

lemma inv_startRound (s : GameSt) (deck : List Card)
    (hnd : s.playerOrder.Nodup) (h2 : 2 ≤ s.playerOrder.length)
    (h8 : s.playerOrder.length ≤ 8) (hr1 : 1 ≤ s.currentRound)
    (hr11 : s.currentRound ≤ 11) (hdeck : deck.Perm createDoubleDeck) :
    Inv (startRoundFn deck s) := by
  have hlen104 : deck.length = 104 :=
    hdeck.length_eq.trans createDoubleDeck_length
  have hfit : s.playerOrder.length * s.currentRound ≤ deck.length := by
    have := Nat.mul_le_mul h8 hr11
    omega
  obtain ⟨hpo, hcr, hhands, hct, htn⟩ := startRoundFn_proj deck s
  refine ⟨hpo ▸ hnd, hpo ▸ h2, hpo ▸ h8, hcr ▸ hr1, hcr ▸ hr11, ?_, ?_, ?_⟩
  · unfold CardConservation sumHands
    rw [hpo, hcr, hhands, hct, htn, sum_deal s.playerOrder deck s.currentRound hnd hfit]
    have hne : ¬(0 = s.currentRound) := by omega
    simp [hne]
    ring
  · unfold allCardIds
    rw [hpo, hhands, hct]
    have hsub := flatMap_deal_sublist s.playerOrder deck s.currentRound hnd
    have hsub2 := hsub.map fun c => c.id
    have hids := deck_perm_ids_nodup deck hdeck
    simp only [List.map_nil, List.append_nil]
    exact List.Nodup.sublist hsub2 hids
  · intro _
    exact ⟨htn, hct⟩

/-! ### Claim C4: the invariant is preserved by every legal event -/

lemma inv_carry (s : GameSt) (hinv : Inv s) : Inv s := hinv

lemma inv_nilDecision (s : GameSt) (p : String) (goNil : Bool) (hinv : Inv s) :
    Inv (stepState s (.nilDecision p goNil)) := by
  obtain ⟨hnd, h2, h8, hr1, hr11, hcons, hids, hph⟩ := hinv
  simp only [stepState, step]
  unfold nilDecisionFn
  by_cases hg : s.phase = .nilPrompt ∧ p ∈ s.playerOrder
  · rw [if_pos hg]
    by_cases hall :
        (s.playerOrder.all fun q => (upd s.nilBids p (some goNil) q).isSome) = true
    · rw [if_pos hall]
      exact ⟨hnd, h2, h8, hr1, hr11, hcons, hids, fun _ => hph (Or.inl hg.1)⟩
    · rw [if_neg hall]
      exact ⟨hnd, h2, h8, hr1, hr11, hcons, hids, fun h => hph h⟩
  · rw [if_neg hg]
    exact ⟨hnd, h2, h8, hr1, hr11, hcons, hids, hph⟩

lemma inv_placeBid (s : GameSt) (p : String) (bid : Int) (hinv : Inv s) :
    Inv (stepState s (.placeBid p bid)) := by
  obtain ⟨hnd, h2, h8, hr1, hr11, hcons, hids, hph⟩ := hinv
  simp only [stepState, step]
  unfold placeBidFn
  by_cases hg : s.phase = .bidding ∧ p ∈ s.playerOrder ∧
      ¬s.nilBids p = some true ∧ getCurrentPlayer s = some p ∧
      0 ≤ bid ∧ bid ≤ (s.currentRound : Int)
  · rw [if_pos hg]
    obtain ⟨ht0, htr0⟩ := hph (Or.inr hg.1)
    by_cases hall : (s.playerOrder.all fun q =>
        s.nilBids q == some true || (upd s.bids p (some bid) q).isSome) = true
    · rw [if_pos hall]
      refine ⟨hnd, h2, h8, hr1, hr11, ?_, ?_, ?_⟩
      · unfold CardConservation sumHands at hcons ⊢
        rw [ht0, htr0] at hcons
        simpa using hcons
      · unfold allCardIds at hids ⊢
        rw [htr0] at hids
        simpa using hids
      · rintro (h | h) <;> exact absurd h (by simp)
    · rw [if_neg hall]
      exact ⟨hnd, h2, h8, hr1, hr11, hcons, hids, fun h => hph h⟩
  · rw [if_neg hg]
    exact ⟨hnd, h2, h8, hr1, hr11, hcons, hids, hph⟩

lemma inv_endRound (s : GameSt) (hinv : Inv s) :
    Inv (stepState s .endRound) := by
  obtain ⟨hnd, h2, h8, hr1, hr11, hcons, hids, hph⟩ := hinv
  simp only [stepState, step]
  unfold endRoundFn
  by_cases hg : s.phase = .playing ∧ s.trickNumber = s.currentRound
  · rw [if_pos hg]
    by_cases hover : 11 ≤ s.currentRound
    · rw [if_pos hover]
      have e4 : Phase.gameOver = Phase.nilPrompt ∨ Phase.gameOver = Phase.bidding →
          s.trickNumber = 0 ∧ s.currentTrick = [] := by
        rintro (h | h) <;> exact absurd h (by simp)
      exact ⟨hnd, h2, h8, hr1, hr11, hcons, hids, e4⟩
    · rw [if_neg hover]
      have e1 : 1 ≤ s.currentRound + 1 := by omega
      have e2 : s.currentRound + 1 ≤ 11 := by omega
      have e3 : (s.playerOrder.map fun p => (s.hands p).length).sum +
          s.trickNumber * s.playerOrder.length + s.currentTrick.length =
          (s.currentRound + 1) * s.playerOrder.length +
            (if s.trickNumber = s.currentRound + 1 then s.playerOrder.length
             else 0) := by
        unfold CardConservation sumHands at hcons
        rw [hg.2, if_pos rfl] at hcons
        rw [hg.2, if_neg (by omega), Nat.succ_mul]
        omega
      have e4 : Phase.roundEnd = Phase.nilPrompt ∨ Phase.roundEnd = Phase.bidding →
          s.trickNumber = 0 ∧ s.currentTrick = [] := by
        rintro (h | h) <;> exact absurd h (by simp)
      exact ⟨hnd, h2, h8, e1, e2, e3, hids, e4⟩
  · rw [if_neg hg]
    exact ⟨hnd, h2, h8, hr1, hr11, hcons, hids, hph⟩

lemma inv_endTrick (s : GameSt) (hinv : Inv s) :
    Inv (stepState s .endTrick) := by
  obtain ⟨hnd, h2, h8, hr1, hr11, hcons, hids, hph⟩ := hinv
  simp only [stepState, step]
  unfold endTrickFn
  by_cases hg : s.phase = .playing ∧
      s.currentTrick.length = s.playerOrder.length ∧
      s.trickNumber < s.currentRound
  · rw [if_pos hg]
    obtain ⟨hphase, hlen, hlt⟩ := hg
    have e4 : s.phase = Phase.nilPrompt ∨ s.phase = Phase.bidding →
        s.trickNumber + 1 = 0 ∧ s.currentTrick = [] := by
      rintro (h | h) <;> rw [hphase] at h <;> exact absurd h (by simp)
    have e4b : s.phase = Phase.nilPrompt ∨ s.phase = Phase.bidding →
        s.trickNumber + 1 = 0 ∧ ([] : List Play) = [] := by
      rintro (h | h) <;> rw [hphase] at h <;> exact absurd h (by simp)
    have hconsx : (s.playerOrder.map fun p => (s.hands p).length).sum +
        s.trickNumber * s.playerOrder.length + s.playerOrder.length =
        s.currentRound * s.playerOrder.length := by
      unfold CardConservation sumHands at hcons
      rw [if_neg (by omega), hlen] at hcons
      omega
    cases hw : determineTrickWinner s.currentTrick
        ((s.currentTrick.head?.map fun t => t.card.suit).getD .spades) with
    | none => exact ⟨hnd, h2, h8, hr1, hr11, hcons, hids, hph⟩
    | some result =>
      dsimp only
      by_cases hover : s.currentRound ≤ s.trickNumber + 1
      · rw [if_pos hover]
        have e3 : (s.playerOrder.map fun p => (s.hands p).length).sum +
            (s.trickNumber + 1) * s.playerOrder.length + s.currentTrick.length =
            s.currentRound * s.playerOrder.length +
              (if s.trickNumber + 1 = s.currentRound then s.playerOrder.length
               else 0) := by
          rw [if_pos (by omega), hlen, Nat.succ_mul]
          omega
        exact ⟨hnd, h2, h8, hr1, hr11, e3, hids, e4⟩
      · rw [if_neg hover]
        have e3 : (s.playerOrder.map fun p => (s.hands p).length).sum +
            (s.trickNumber + 1) * s.playerOrder.length +
              ([] : List Play).length =
            s.currentRound * s.playerOrder.length +
              (if s.trickNumber + 1 = s.currentRound then s.playerOrder.length
               else 0) := by
          rw [if_neg (by omega), Nat.succ_mul]
          simp only [List.length_nil]
          omega
        have e5 : ((s.playerOrder.flatMap s.hands ++
            ([] : List Play).map fun t => t.card).map fun c => c.id).Nodup := by
          unfold allCardIds at hids
          simp only [List.map_nil, List.append_nil]
          exact List.Nodup.sublist
            (List.Sublist.map (fun c : Card => c.id)
              (List.sublist_append_left (s.playerOrder.flatMap s.hands)
                (s.currentTrick.map fun t => t.card))) hids
        exact ⟨hnd, h2, h8, hr1, hr11, e3, e5, e4b⟩
  · rw [if_neg hg]
    exact ⟨hnd, h2, h8, hr1, hr11, hcons, hids, hph⟩

lemma inv_stepState (s : GameSt) (e : GEvent) (hinv : Inv s)
    (hle : LegalEvent e) : Inv (stepState s e) := by
  cases e with
  | startRound deck =>
    simp only [stepState, step]
    by_cases hph : s.phase = .roundEnd
    · rw [if_pos hph]
      obtain ⟨hnd, h2, h8, hr1, hr11, _, _, _⟩ := hinv
      exact inv_startRound s deck hnd h2 h8 hr1 hr11 hle
    · rw [if_neg hph]
      exact hinv
  | nilDecision p goNil => exact inv_nilDecision s p goNil hinv
  | placeBid p bid => exact inv_placeBid s p bid hinv
  | playCard p cid => exact inv_playCard s p cid hinv
  | endTrick => exact inv_endTrick s hinv
  | endRound => exact inv_endRound s hinv

lemma inv_run (events : List GEvent) :
    ∀ s, Inv s → (∀ e ∈ events, LegalEvent e) →
      Inv (events.foldl stepState s) := by
  induction events with
  | nil =>
    intro s hinv _
    simpa using hinv
  | cons e rest ih =>
    intro s hinv hle
    simp only [List.foldl_cons]
    exact ih (stepState s e)
      (inv_stepState s e hinv (hle e (List.mem_cons_self e rest)))
      fun x hx => hle x (List.mem_cons_of_mem e hx)

/-- Claim C4 (amended): after every legal event of a game started with 2-8
uniquely-named players and a shuffled double deck, (a) the sum of the hand
sizes plus `trickNumber * |players|` plus `currentTrick.length` equals
`currentRound * |players|` — except that the resolved final trick of a round
remains in `currentTrick` until the next `startRound` (it is never cleared by
`processEndOfTrick`/`processEndOfRound`), which adds exactly `|players|` to
the left-hand side precisely while `trickNumber = currentRound`; and (b)
each card id appears in at most one place (one hand or the current trick). -/
theorem cardConservation_runGame (players : List String) (deck : List Card)
    (events : List GEvent) (hnd : players.Nodup) (h2 : 2 ≤ players.length)
    (h8 : players.length ≤ 8) (hdeck : deck.Perm createDoubleDeck)
    (hev : ∀ e ∈ events, LegalEvent e) :
    CardConservation (runGame players deck events) ∧
    (allCardIds (runGame players deck events)).Nodup := by
  have hinit : Inv (initGame players deck) :=
    inv_startRound (createGameState players) deck hnd h2 h8 (Nat.le_refl 1)
      (by simp [createGameState]) hdeck
  have hrun := inv_run events (initGame players deck) hinit hev
  exact ⟨hrun.2.2.2.2.2.1, hrun.2.2.2.2.2.2.1⟩

/-- Witness for C4's amended theorem at a concrete 2-player start. -/
theorem cardConservation_runGame_witness :
    CardConservation (runGame ["A", "B"] createDoubleDeck []) ∧
    (allCardIds (runGame ["A", "B"] createDoubleDeck [])).Nodup :=
  cardConservation_runGame ["A", "B"] createDoubleDeck [] (by decide)
    (by decide) (by decide) (List.Perm.refl _) (by simp)

/-- A full legal round-1 game for two players: both bid 0, both cards are
played, and the scheduled trick resolution fires.  Every event in the list is
legal (`LegalEvent` is trivial for all of them). -/
def runCxC4 : GameSt :=
  runGame ["A", "B"] createDoubleDeck
    [.placeBid "B" 0, .placeBid "A" 0, .playCard "B" 1, .playCard "A" 0,
     .endTrick]

/-- Claim C4 counterexample: immediately after the round's final trick is
resolved, the cards of that trick are still in `currentTrick` and
`trickNumber` has been incremented, so the claimed sum is
`4 = currentRound * |players| + |players|`, not `currentRound * |players| =
2`. -/
theorem cardConservation_residual_trick_cx :
    sumHands runCxC4 + runCxC4.trickNumber * runCxC4.playerOrder.length +
        runCxC4.currentTrick.length = 4 ∧
    runCxC4.currentRound * runCxC4.playerOrder.length = 2 := by
  constructor <;> decide

end Spades
